import Mathlib

/-!
Verification of the bounded pagination and chunked-text retrieval engine of
the bugherd-mcp server, shallowly embedded from the TypeScript source.

Conventions of the embedding:
* JS numbers are modelled as Int (every value these claims quantify over is
  an integer, and the code only ever produces integers in these positions).
* JS strings are modelled as Lean String (and their code-unit sequences as
  List Char); all strings the cursor codec serializes are ASCII.
* Buffer/base64url and the JSON (de)serialization of the cursor payloads are
  implemented concretely below, restricted to the payload grammar the code
  produces: flat one-field objects with integer values, and bare integer
  literals.  Inputs outside that grammar are treated as parse failures, which
  decodePageCursor and decodeTextCursor turn into the InvalidCursor error
  either way.
* Fallible code (throw / catch) is modelled with Except.
-/

namespace BugherdMcp

/-! ### Decimal digits: the model of the /^\d+$/ test, Number(s) and String(n) -/

/-- The decimal digit characters, used by the model of number serialization. -/
def digitChar : Nat → Char
  | 0 => '0' | 1 => '1' | 2 => '2' | 3 => '3' | 4 => '4'
  | 5 => '5' | 6 => '6' | 7 => '7' | 8 => '8' | _ => '9'

/-- Model of the JS regular-expression test of a candidate cursor against
the all-digits pattern: at least one character and every character a digit. -/
def isDigitString (s : String) : Bool :=
  !s.data.isEmpty && s.data.all Char.isDigit

/-- Model of Number(s) for an all-digit string s. -/
def digitsToNat (cs : List Char) : Nat :=
  cs.foldl (fun acc c => acc * 10 + (c.toNat - 48)) 0

/-- Fuel-driven core of the decimal rendering of a natural number; fuel at
least the number of digits suffices, and natToChars always supplies enough. -/
def natToCharsAux : Nat → Nat → List Char
  | 0, _ => []
  | fuel + 1, m =>
    if m < 10 then [digitChar m] else natToCharsAux fuel (m / 10) ++ [digitChar (m % 10)]

/-- Model of the decimal rendering of a natural number, digit by digit. -/
def natToChars (n : Nat) : List Char := natToCharsAux (n + 1) n

/-- Model of the JS rendering of an integer (String(n), template interpolation
and JSON.stringify agree on integers). -/
def intToChars (i : Int) : List Char :=
  if i < 0 then '-' :: natToChars (-i).toNat else natToChars i.toNat

/-- String form of the integer rendering. -/
def jsNumToString (i : Int) : String := ⟨intToChars i⟩

/-! ### base64url, as used by Buffer.from(-, "utf8").toString("base64url")
and its inverse.  The decoder is the strict inverse of the encoder; Node is
more lenient on malformed input, but every input on which the two differ
fails JSON parsing or shape validation downstream, producing the same
InvalidCursor outcome. -/

/-- The base64url alphabet. -/
def b64Alphabet : List Char :=
  "ABCDEFGHIJKLMNOPQRSTUVWXYZabcdefghijklmnopqrstuvwxyz0123456789-_".data

/-- The character for a 6-bit group. -/
def b64Char (n : Nat) : Char := b64Alphabet.getD n 'A'

/-- The 6-bit group of a character, none if the character is outside the
alphabet. -/
def b64Index (c : Char) : Option Nat :=
  b64Alphabet.findIdx? (fun x => x == c)

/-- base64url (unpadded, as Node emits it) of a byte sequence. -/
def b64urlEncode : List Nat → List Char
  | [] => []
  | [b1] => [b64Char (b1 / 4), b64Char (b1 % 4 * 16)]
  | [b1, b2] => [b64Char (b1 / 4), b64Char (b1 % 4 * 16 + b2 / 16), b64Char (b2 % 16 * 4)]
  | b1 :: b2 :: b3 :: rest =>
    b64Char (b1 / 4) :: b64Char (b1 % 4 * 16 + b2 / 16) ::
      b64Char (b2 % 16 * 4 + b3 / 64) :: b64Char (b3 % 64) :: b64urlEncode rest

/-- Inverse of b64urlEncode. -/
def b64urlDecode : List Char → Option (List Nat)
  | [] => some []
  | [_] => none
  | [c1, c2] =>
    match b64Index c1, b64Index c2 with
    | some n1, some n2 => some [n1 * 4 + n2 / 16]
    | _, _ => none
  | [c1, c2, c3] =>
    match b64Index c1, b64Index c2, b64Index c3 with
    | some n1, some n2, some n3 => some [n1 * 4 + n2 / 16, n2 % 16 * 16 + n3 / 4]
    | _, _, _ => none
  | c1 :: c2 :: c3 :: c4 :: rest =>
    match b64Index c1, b64Index c2, b64Index c3, b64Index c4, b64urlDecode rest with
    | some n1, some n2, some n3, some n4, some tl =>
      some ((n1 * 4 + n2 / 16) :: (n2 % 16 * 16 + n3 / 4) :: (n3 % 4 * 64 + n4) :: tl)
    | _, _, _, _, _ => none

/-! ### UTF-8, restricted to the ASCII strings the payload serialization
produces (every byte below 128 encodes itself). -/

/-- Byte sequence of an ASCII string. -/
def utf8Encode (cs : List Char) : List Nat := cs.map Char.toNat

/-- Characters of an ASCII byte sequence; none on a byte outside ASCII
(the payload grammar never produces one). -/
def utf8Decode (bs : List Nat) : Option (List Char) :=
  if bs.all (fun b => b < 128) then some (bs.map Char.ofNat) else none

/-! ### JSON, restricted to the grammar of the cursor payloads: a bare
integer literal, or a one-field object with an integer value, exactly as
JSON.stringify renders the page / offset payloads (no whitespace). -/

/-- JSON values of the cursor-payload grammar. -/
inductive Json where
  | num (v : Int)
  | obj (key : String) (v : Int)
deriving DecidableEq

/-- Parse an integer literal at the head of the input, returning the rest. -/
def parseIntToken : List Char → Option (Int × List Char)
  | '-' :: rest =>
    let p := rest.span Char.isDigit
    if p.1.isEmpty then none else some (-(digitsToNat p.1 : Int), p.2)
  | cs =>
    let p := cs.span Char.isDigit
    if p.1.isEmpty then none else some ((digitsToNat p.1 : Int), p.2)

/-- Model of JSON.parse on the cursor-payload grammar. -/
def jsonParse (cs : List Char) : Option Json :=
  match cs with
  | '\x7b' :: rest =>
    match rest with
    | '"' :: rest2 =>
      let p := rest2.span (fun c => c != '"')
      match p.2 with
      | '"' :: ':' :: rest3 =>
        match parseIntToken rest3 with
        | some (v, ['\x7d']) => some (.obj ⟨p.1⟩ v)
        | _ => none
      | _ => none
    | _ => none
  | _ =>
    match parseIntToken cs with
    | some (v, []) => some (.num v)
    | _ => none

/-! ### The cursor codec itself -/

/-- Page-cursor payload. -/
structure PageCursor where
  page : Int
deriving DecidableEq

/-- Text-cursor payload. -/
structure TextCursor where
  offset : Int
deriving DecidableEq

/-- A cursor argument as the decoders receive it: a JS number or a string. -/
inductive CursorInput where
  | num (n : Int)
  | str (s : String)
deriving DecidableEq

/-- JSON.stringify of a page payload. -/
def jsonStringifyPage (p : Int) : List Char :=
  "\x7b\"page\":".data ++ intToChars p ++ ['\x7d']

/-- JSON.stringify of an offset payload. -/
def jsonStringifyOffset (o : Int) : List Char :=
  "\x7b\"offset\":".data ++ intToChars o ++ ['\x7d']

/-- encodePageCursor: serialize the payload to JSON and base64url it. -/
def encodePageCursor (v : PageCursor) : String :=
  ⟨b64urlEncode (utf8Encode (jsonStringifyPage v.page))⟩

/-- encodeTextCursor: serialize the payload to JSON and base64url it. -/
def encodeTextCursor (v : TextCursor) : String :=
  ⟨b64urlEncode (utf8Encode (jsonStringifyOffset v.offset))⟩

/-- The InvalidCursor message thrown by decodePageCursor. -/
def invalidPageCursorMessage : String :=
  "Invalid cursor. Use the cursor returned by the server, or pass a numeric page (e.g. 1)."

/-- The InvalidCursor message thrown by decodeTextCursor. -/
def invalidTextCursorMessage : String :=
  "Invalid cursor. Use next_cursor returned by the server, or pass a numeric offset (e.g. 0)."

/-- The zod shape check of the page payload: an object with an integer
positive page field (unknown keys are ignored; the grammar has one key). -/
def zodPagePayload : Json → Option PageCursor
  | .obj k v => if k = "page" ∧ 0 < v then some ⟨v⟩ else none
  | .num _ => none

/-- The zod shape check of the offset payload. -/
def zodOffsetPayload : Json → Option TextCursor
  | .obj k v => if k = "offset" ∧ 0 ≤ v then some ⟨v⟩ else none
  | .num _ => none

/-- decodePageCursor: a bare number, or an all-digit string, is taken as the
page directly (no shape check); otherwise the opaque form is base64url
decoded, JSON parsed and zod validated, any failure becoming the
InvalidCursor error. -/
def decodePageCursor : CursorInput → Except String PageCursor
  | .num n => .ok ⟨n⟩
  | .str s =>
    if isDigitString s then .ok ⟨(digitsToNat s.data : Int)⟩
    else
      match b64urlDecode s.data with
      | none => .error invalidPageCursorMessage
      | some bytes =>
        match utf8Decode bytes with
        | none => .error invalidPageCursorMessage
        | some cs =>
          match jsonParse cs with
          | none => .error invalidPageCursorMessage
          | some j =>
            match zodPagePayload j with
            | some pc => .ok pc
            | none => .error invalidPageCursorMessage

/-- decodeTextCursor: same structure as decodePageCursor with the offset
shape. -/
def decodeTextCursor : CursorInput → Except String TextCursor
  | .num n => .ok ⟨n⟩
  | .str s =>
    if isDigitString s then .ok ⟨(digitsToNat s.data : Int)⟩
    else
      match b64urlDecode s.data with
      | none => .error invalidTextCursorMessage
      | some bytes =>
        match utf8Decode bytes with
        | none => .error invalidTextCursorMessage
        | some cs =>
          match jsonParse cs with
          | none => .error invalidTextCursorMessage
          | some j =>
            match zodOffsetPayload j with
            | some tc => .ok tc
            | none => .error invalidTextCursorMessage

/-! ### Text Chunker -/

/-- The result record of textChunk: the window, the clamped start, the next
offset (none at end of text) and the composed next cursor. -/
structure ChunkWindow where
  chunk : List Char
  offset : Int
  nextOffset : Option Int
  nextCursor : Option String
deriving DecidableEq

/-- Model of JS String.prototype.substring: both indices clamped to
[0, length], swapped when start exceeds end. -/
def jsSubstring (text : List Char) (a b : Int) : List Char :=
  let len : Int := text.length
  let a' := min (max a 0) len
  let b' := min (max b 0) len
  let lo := min a' b'
  let hi := max a' b'
  (text.drop lo.toNat).take (hi - lo).toNat

/-- textChunk: clamp the offset below by 0, cut the window, and report the
exclusive end as the next offset unless the text is exhausted; the next
cursor is the encoded next offset. -/
def textChunk (text : List Char) (offset maxChars : Int) : ChunkWindow :=
  let start := max 0 offset
  let stop := min (text.length : Int) (start + maxChars)
  let chunk := jsSubstring text start stop
  let nextOffset : Option Int := if stop < (text.length : Int) then some stop else none
  { chunk := chunk
    offset := start
    nextOffset := nextOffset
    nextCursor :=
      match nextOffset with
      | none => none
      | some o => some (encodeTextCursor ⟨o⟩) }

/-- The retrieval loop of the round-trip property: call textChunk, and while
a next cursor is emitted, decode it with decodeTextCursor and continue from
the decoded offset, concatenating the chunks.  The fuel argument bounds the
iteration count; text.length steps always suffice when maxChars is positive
(a failed decode, which never happens on emitted cursors, would stop the
loop). -/
def followChunks (fuel : Nat) (text : List Char) (maxChars : Int) (offset : Int) : List Char :=
  match fuel with
  | 0 => []
  | fuel + 1 =>
    let w := textChunk text offset maxChars
    match w.nextCursor with
    | none => w.chunk
    | some cs =>
      match decodeTextCursor (.str cs) with
      | .error _ => w.chunk
      | .ok tc => w.chunk ++ followChunks fuel text maxChars tc.offset

/-! ### Deterministic Sorter -/

/-- A task as the sorter sees it.  The two timestamp fields hold the
Date.parse value of the ISO timestamp string (compareDateString subtracts
exactly these parsed values), local_task_id is the per-project sequence
number and id the globally unique identifier. -/
structure Task where
  id : Int
  local_task_id : Int
  updated_at : Int
  created_at : Int
deriving DecidableEq

/-- The sort modes of the tasks_list tool. -/
inductive SortMode where
  | api
  | updated_at_desc
  | updated_at_asc
  | created_at_desc
  | created_at_asc
  | local_task_id_desc
  | local_task_id_asc
deriving DecidableEq

/-- The comparator passed to Array.prototype.sort by sortTasks: primary
field difference in the requested direction, id difference in the same
direction on a tie.  The api mode never reaches the comparator (sortTasks
returns the input first); its value here is irrelevant. -/
def taskCmp (mode : SortMode) (left right : Task) : Int :=
  match mode with
  | .api => 0
  | .updated_at_desc =>
    if right.updated_at - left.updated_at ≠ 0
    then right.updated_at - left.updated_at
    else right.id - left.id
  | .updated_at_asc =>
    if left.updated_at - right.updated_at ≠ 0
    then left.updated_at - right.updated_at
    else left.id - right.id
  | .created_at_desc =>
    if right.created_at - left.created_at ≠ 0
    then right.created_at - left.created_at
    else right.id - left.id
  | .created_at_asc =>
    if left.created_at - right.created_at ≠ 0
    then left.created_at - right.created_at
    else left.id - right.id
  | .local_task_id_desc =>
    if right.local_task_id ≠ left.local_task_id
    then right.local_task_id - left.local_task_id
    else right.id - left.id
  | .local_task_id_asc =>
    if left.local_task_id ≠ right.local_task_id
    then left.local_task_id - right.local_task_id
    else left.id - right.id

/-- sortTasks: the api mode returns the fetched order untouched; every other
mode sorts a copy by the comparator.  A comparison sort under a consistent
total comparator has exactly one possible output, so insertionSort models
Array.prototype.sort faithfully here. -/
def sortTasks (tasks : List Task) (mode : SortMode) : List Task :=
  match mode with
  | .api => tasks
  | _ => List.insertionSort (fun l r => taskCmp mode l r ≤ 0) tasks

/-- Specification helper: the primary sort field of each ordered mode. -/
def primaryKey (mode : SortMode) (t : Task) : Int :=
  match mode with
  | .api => 0
  | .updated_at_desc | .updated_at_asc => t.updated_at
  | .created_at_desc | .created_at_asc => t.created_at
  | .local_task_id_desc | .local_task_id_asc => t.local_task_id

/-- Specification helper: whether the mode sorts descending. -/
def isDescMode : SortMode → Bool
  | .api => false
  | .updated_at_desc => true
  | .updated_at_asc => false
  | .created_at_desc => true
  | .created_at_asc => false
  | .local_task_id_desc => true
  | .local_task_id_asc => false

/-- The signed lexicographic comparison on (primary, id) pairs that every
ordered comparator reduces to. -/
def lexCmp (p q : Int × Int) : Int :=
  if p.1 ≠ q.1 then p.1 - q.1 else p.2 - q.2

/-- The key under which an ordered mode compares: negated for descending
modes so that the comparator is always lexCmp of the keys. -/
def cmpKey (mode : SortMode) (t : Task) : Int × Int :=
  if isDescMode mode then (-(primaryKey mode t), -t.id) else (primaryKey mode t, t.id)

/-! ### Column Identity Cache -/

/-- A status column of the remote project. -/
structure Column where
  id : Int
  name : String
deriving DecidableEq

/-- Lookup in an association-list model of a JS Map. -/
def alGet {κ ν : Type} [DecidableEq κ] : List (κ × ν) → κ → Option ν
  | [], _ => none
  | (k', v) :: rest, k => if k' = k then some v else alGet rest k

/-- Map.set on the association-list model: overwrite in place or append. -/
def alSet {κ ν : Type} [DecidableEq κ] : List (κ × ν) → κ → ν → List (κ × ν)
  | [], k, v => [(k, v)]
  | (k', v') :: rest, k, v =>
    if k' = k then (k, v) :: rest else (k', v') :: alSet rest k v

/-- Model of String.prototype.toLowerCase character by character (the
column names and status labels it is applied to are plain text). -/
def jsToLower (s : String) : String := ⟨s.data.map Char.toLower⟩

/-- Build both direction maps from a fetched column list: id to name, and
lowercased name to id. -/
def buildColumnMaps (cols : List Column) : List (Int × String) × List (String × Int) :=
  cols.foldl
    (fun maps col => (alSet maps.1 col.id col.name, alSet maps.2 (jsToLower col.name) col.id))
    ([], [])

/-- The two module-level caches of the api client, keyed by project id. -/
structure ClientState where
  columnCache : List (Int × List (Int × String))
  columnNameToIdCache : List (Int × List (String × Int))
deriving DecidableEq

/-- getColumnMappings: when the project is not in columnCache, perform the
remote fetch (its outcome is the fetchResult argument; a thrown error
propagates before any cache write), build and store both maps; then answer
from the caches.  The Nat in the result counts the remote fetches this call
performed. -/
def getColumnMappings (fetchResult : Except String (List Column)) (st : ClientState)
    (projectId : Int) :
    Except String ((List (Int × String)) × (List (String × Int)) × ClientState × Nat) :=
  match alGet st.columnCache projectId with
  | some _ =>
    .ok ((alGet st.columnCache projectId).getD [],
         (alGet st.columnNameToIdCache projectId).getD [], st, 0)
  | none =>
    match fetchResult with
    | .error e => .error e
    | .ok cols =>
      let maps := buildColumnMaps cols
      let st' : ClientState :=
        ⟨alSet st.columnCache projectId maps.1,
         alSet st.columnNameToIdCache projectId maps.2⟩
      .ok ((alGet st'.columnCache projectId).getD [],
           (alGet st'.columnNameToIdCache projectId).getD [], st', 1)

/-! ### tasks_list navigation block -/

/-- The meta block a list endpoint may return; each field may be absent. -/
structure TasksMeta where
  count : Option Int
  current_page : Option Int
  total_pages : Option Int
deriving DecidableEq

/-- The pagination values and the conditionally emitted header lines of a
tasks_list response.  The unconditional header lines (scope, sort, page,
page_size) are omitted; lines holds the cursor line and the four
conditional navigation lines exactly as the template appends them. -/
structure ListNav where
  currentPage : Int
  totalPages : Option Int
  cursor : String
  nextPage : Option Int
  prevPage : Option Int
  nextCursor : Option String
  prevCursor : Option String
  lines : List String
deriving DecidableEq

/-- The navigation computation of the tasks_list handler after currentPage
and totalPages are derived from meta: always a cursor for the current page,
a next page only when totalPages is truthy and the current page is before
it, a previous page whenever the current page exceeds 1, and a line emitted
per truthy value. -/
def tasksListNavCore (currentPage : Int) (totalPages : Option Int) : ListNav :=
  let cursor := encodePageCursor ⟨currentPage⟩
  let nextPage : Option Int :=
    match totalPages with
    | some t => if t ≠ 0 ∧ currentPage < t then some (currentPage + 1) else none
    | none => none
  let prevPage : Option Int := if 1 < currentPage then some (currentPage - 1) else none
  let nextCursor : Option String :=
    match nextPage with
    | some np => if np ≠ 0 then some (encodePageCursor ⟨np⟩) else none
    | none => none
  let prevCursor : Option String :=
    match prevPage with
    | some pp => if pp ≠ 0 then some (encodePageCursor ⟨pp⟩) else none
    | none => none
  { currentPage := currentPage
    totalPages := totalPages
    cursor := cursor
    nextPage := nextPage
    prevPage := prevPage
    nextCursor := nextCursor
    prevCursor := prevCursor
    lines :=
      ["cursor: " ++ cursor]
      ++ (match nextPage with
          | some np => if np ≠ 0 then ["next_page: " ++ jsNumToString np] else []
          | none => [])
      ++ (match prevPage with
          | some pp => if pp ≠ 0 then ["prev_page: " ++ jsNumToString pp] else []
          | none => [])
      ++ (match nextCursor with
          | some c => ["next_cursor: " ++ c]
          | none => [])
      ++ (match prevCursor with
          | some c => ["prev_cursor: " ++ c]
          | none => []) }

/-- The navigation computation of the tasks_list handler: current page from
meta falling back to the requested page, total pages from meta falling back
to null, then the core computation above. -/
def tasksListNav (meta : Option TasksMeta) (page : Int) : ListNav :=
  tasksListNavCore ((meta.bind TasksMeta.current_page).getD page)
    (meta.bind TasksMeta.total_pages)

/-! ### Status filtering and status moves -/

/-- A task as the status filter sees it: the numeric column id when the task
has one, and the computed status label when the api returned one. -/
structure TaskItem where
  status_id : Option Int
  status : Option String
deriving DecidableEq

/-- The status-filter step of tasks_list: a status name that resolves in the
name-to-id map filters by column id; otherwise the handler falls back to a
case-insensitive match on each task's status label.  No error is produced on
an unknown name. -/
def tasksListStatusFilter (nameToId : List (String × Int)) (statusArg : String)
    (tasks : List TaskItem) : List TaskItem :=
  match alGet nameToId (jsToLower statusArg) with
  | some targetId => tasks.filter (fun t => t.status_id = some targetId)
  | none =>
    tasks.filter (fun t =>
      match t.status with
      | some s => jsToLower s = jsToLower statusArg
      | none => false)

/-- Outcome of the task_move_status handler up to the remote update: either
the tool-level error result (isError true) or a move to the named column. -/
inductive MoveOutcome where
  | errorResult (text : String)
  | moved (toName : String)
deriving DecidableEq

/-- The error text of the unknown-column tool result. -/
def unknownColumnMessage (columnId : Int) : String :=
  "Error: Unknown column id " ++ jsNumToString columnId ++ ". Use columns_list to see valid ids."

/-- task_move_status: resolve the target column id in the id-to-name cache;
a missing (or empty, JS falsiness) name yields the tool-level error result
instructing the caller to re-list columns, otherwise the task is moved. -/
def task_move_status (idToName : List (Int × String)) (to_column_id : Int) : MoveOutcome :=
  match alGet idToName to_column_id with
  | none => .errorResult (unknownColumnMessage to_column_id)
  | some toName =>
    if toName = "" then .errorResult (unknownColumnMessage to_column_id)
    else .moved toName

/-! ### comments_list client-side pagination -/

/-- Model of JS Array.prototype.slice with two arguments: negative indices
count from the end, both are clamped, and an empty slice results when the
start is not before the end. -/
def jsArraySlice {α : Type} (l : List α) (a b : Int) : List α :=
  let len : Int := l.length
  let a' := if a < 0 then max (len + a) 0 else min a len
  let b' := if b < 0 then max (len + b) 0 else min b len
  (l.drop a'.toNat).take (b' - a').toNat

/-- The page of comments the comments_list handler returns, with its
navigation values. -/
structure CommentsPage (α : Type) where
  slice : List α
  cursor : String
  nextPage : Option Int
  prevPage : Option Int
  nextCursor : Option String
  prevCursor : Option String

/-- comments_list after the single listComments fetch: slice the full
comment list client-side at (page-1)*pageSize, emit a cursor for the page,
and a next page exactly while the slice end is before the end of the list. -/
def comments_list {α : Type} (comments : List α) (page pageSize : Int) : CommentsPage α :=
  let start := (page - 1) * pageSize
  let stop := start + pageSize
  let nextPage : Option Int :=
    if stop < (comments.length : Int) then some (page + 1) else none
  let prevPage : Option Int := if 1 < page then some (page - 1) else none
  { slice := jsArraySlice comments start stop
    cursor := encodePageCursor ⟨page⟩
    nextPage := nextPage
    prevPage := prevPage
    nextCursor :=
      match nextPage with
      | some np => if np ≠ 0 then some (encodePageCursor ⟨np⟩) else none
      | none => none
    prevCursor :=
      match prevPage with
      | some pp => if pp ≠ 0 then some (encodePageCursor ⟨pp⟩) else none
      | none => none }

/-- The concatenation of the comments_list slices of pages 1 through pages,
used to state that consecutive pages tile the comment list. -/
def commentsPagesConcat {α : Type} (comments : List α) (pageSize : Int) (pages : Nat) :
    List α :=
  ((List.range pages).map
    (fun (i : Nat) => (comments_list comments ((i : Int) + 1) pageSize).slice)).flatten

/-! ### Lemmas: decimal digits -/

theorem digitChar_isDigit : ∀ d, d < 10 → (digitChar d).isDigit = true := by decide

theorem digitChar_toNat : ∀ d, d < 10 → (digitChar d).toNat = 48 + d := by decide

theorem digitChar_ascii : ∀ d, d < 10 → (digitChar d).toNat < 128 := by decide

theorem natToCharsAux_all_digit :
    ∀ fuel m, ∀ c ∈ natToCharsAux fuel m, c.isDigit = true := by
  intro fuel
  induction fuel with
  | zero => intro m c hc; simp [natToCharsAux] at hc
  | succ fuel ih =>
    intro m c hc
    simp only [natToCharsAux] at hc
    split at hc
    · next h =>
      simp only [List.mem_singleton] at hc
      subst hc
      exact digitChar_isDigit m h
    · rcases List.mem_append.mp hc with h1 | h2
      · exact ih _ _ h1
      · simp only [List.mem_singleton] at h2
        subst h2
        exact digitChar_isDigit _ (Nat.mod_lt _ (by omega))

theorem natToCharsAux_ascii :
    ∀ fuel m, ∀ c ∈ natToCharsAux fuel m, c.toNat < 128 := by
  intro fuel
  induction fuel with
  | zero => intro m c hc; simp [natToCharsAux] at hc
  | succ fuel ih =>
    intro m c hc
    simp only [natToCharsAux] at hc
    split at hc
    · next h =>
      simp only [List.mem_singleton] at hc
      subst hc
      exact digitChar_ascii m h
    · rcases List.mem_append.mp hc with h1 | h2
      · exact ih _ _ h1
      · simp only [List.mem_singleton] at h2
        subst h2
        exact digitChar_ascii _ (Nat.mod_lt _ (by omega))

theorem natToCharsAux_ne_nil : ∀ fuel m, m < fuel → natToCharsAux fuel m ≠ [] := by
  intro fuel
  cases fuel with
  | zero => intro m h; omega
  | succ fuel =>
    intro m _
    simp only [natToCharsAux]
    split
    · simp
    · simp

theorem digitsToNat_append_digit (ds : List Char) (c : Char) :
    digitsToNat (ds ++ [c]) = digitsToNat ds * 10 + (c.toNat - 48) := by
  simp [digitsToNat, List.foldl_append]

theorem digitsToNat_natToCharsAux :
    ∀ fuel m, m < fuel → digitsToNat (natToCharsAux fuel m) = m := by
  intro fuel
  induction fuel with
  | zero => intro m h; omega
  | succ fuel ih =>
    intro m hm
    simp only [natToCharsAux]
    split
    · next h =>
      simp [digitsToNat, digitChar_toNat m h]
    · next h =>
      rw [digitsToNat_append_digit, ih (m / 10) (by omega),
        digitChar_toNat _ (Nat.mod_lt _ (by omega))]
      omega

theorem natToChars_all_digit (n : Nat) : ∀ c ∈ natToChars n, c.isDigit = true :=
  natToCharsAux_all_digit (n + 1) n

theorem natToChars_ascii (n : Nat) : ∀ c ∈ natToChars n, c.toNat < 128 :=
  natToCharsAux_ascii (n + 1) n

theorem natToChars_ne_nil (n : Nat) : natToChars n ≠ [] :=
  natToCharsAux_ne_nil (n + 1) n (by omega)

theorem digitsToNat_natToChars (n : Nat) : digitsToNat (natToChars n) = n :=
  digitsToNat_natToCharsAux (n + 1) n (by omega)

theorem intToChars_of_nonneg (i : Int) (h : 0 ≤ i) : intToChars i = natToChars i.toNat := by
  simp [intToChars, Int.not_lt.mpr h]

theorem intToChars_ascii (i : Int) : ∀ c ∈ intToChars i, c.toNat < 128 := by
  intro c hc
  simp only [intToChars] at hc
  by_cases h : i < 0
  · rw [if_pos h] at hc
    rcases List.mem_cons.mp hc with hc | hc
    · subst hc; decide
    · exact natToChars_ascii _ _ hc
  · rw [if_neg h] at hc
    exact natToChars_ascii _ _ hc

/-! ### Lemmas: base64url and UTF-8 round-trips -/

theorem b64Index_b64Char : ∀ n, n < 64 → b64Index (b64Char n) = some n := by decide

theorem b64url_roundtrip :
    ∀ bs : List Nat, (∀ b ∈ bs, b < 256) → b64urlDecode (b64urlEncode bs) = some bs := by
  intro bs
  induction bs using b64urlEncode.induct with
  | case1 => intro; simp [b64urlEncode, b64urlDecode]
  | case2 b1 =>
    intro h
    have hb1 : b1 < 256 := h b1 (by simp)
    have e1 := b64Index_b64Char (b1 / 4) (by omega)
    have e2 := b64Index_b64Char (b1 % 4 * 16) (by omega)
    simp [b64urlEncode, b64urlDecode, e1, e2]
    omega
  | case3 b1 b2 =>
    intro h
    have hb1 : b1 < 256 := h b1 (by simp)
    have hb2 : b2 < 256 := h b2 (by simp)
    have e1 := b64Index_b64Char (b1 / 4) (by omega)
    have e2 := b64Index_b64Char (b1 % 4 * 16 + b2 / 16) (by omega)
    have e3 := b64Index_b64Char (b2 % 16 * 4) (by omega)
    simp [b64urlEncode, b64urlDecode, e1, e2, e3]
    omega
  | case4 b1 b2 b3 rest ih =>
    intro h
    have hb1 : b1 < 256 := h b1 (by simp)
    have hb2 : b2 < 256 := h b2 (by simp)
    have hb3 : b3 < 256 := h b3 (by simp)
    have hrest : ∀ b ∈ rest, b < 256 := by
      intro b hb; exact h b (by simp [hb])
    have e1 := b64Index_b64Char (b1 / 4) (by omega)
    have e2 := b64Index_b64Char (b1 % 4 * 16 + b2 / 16) (by omega)
    have e3 := b64Index_b64Char (b2 % 16 * 4 + b3 / 64) (by omega)
    have e4 := b64Index_b64Char (b3 % 64) (by omega)
    simp [b64urlEncode, b64urlDecode, e1, e2, e3, e4, ih hrest]
    omega

theorem utf8_roundtrip :
    ∀ cs : List Char, (∀ c ∈ cs, c.toNat < 128) → utf8Decode (utf8Encode cs) = some cs := by
  intro cs h
  have hall : (utf8Encode cs).all (fun b => decide (b < 128)) = true := by
    simp only [utf8Encode, List.all_eq_true]
    intro b hb
    rcases List.mem_map.mp hb with ⟨c, hc, rfl⟩
    simpa using h c hc
  simp only [utf8Decode]
  rw [if_pos (by simpa using hall)]
  simp [utf8Encode, List.map_map, Function.comp_def, Char.ofNat_toNat]

theorem utf8Encode_lt_256 (cs : List Char) (h : ∀ c ∈ cs, c.toNat < 128) :
    ∀ b ∈ utf8Encode cs, b < 256 := by
  intro b hb
  rcases List.mem_map.mp hb with ⟨c, hc, rfl⟩
  have := h c hc
  omega

/-! ### Lemmas: the payload parser on canonical serializations -/

theorem span_prefix {P : Char → Bool} :
    ∀ (ds : List Char) (x : Char) (t : List Char), (∀ c ∈ ds, P c = true) → P x = false →
      List.span P (ds ++ x :: t) = (ds, x :: t) := by
  intro ds
  induction ds with
  | nil =>
    intro x t _ hx
    simp [List.span_eq_take_drop, List.takeWhile, List.dropWhile, hx]
  | cons d ds ih =>
    intro x t hds hx
    have hd : P d = true := hds d (by simp)
    have := ih x t (fun c hc => hds c (by simp [hc])) hx
    simp only [List.span_eq_take_drop] at this ⊢
    simp only [List.cons_append, List.takeWhile_cons, List.dropWhile_cons, hd]
    simp_all

theorem parseIntToken_canonical (i : Int) (h : 0 ≤ i) :
    parseIntToken (intToChars i ++ ['\x7d']) = some (i, ['\x7d']) := by
  rw [intToChars_of_nonneg i h]
  obtain ⟨c, cs, hcons⟩ : ∃ c cs, natToChars i.toNat = c :: cs := by
    cases hn : natToChars i.toNat with
    | nil => exact absurd hn (natToChars_ne_nil _)
    | cons c cs => exact ⟨c, cs, rfl⟩
  have hcdigit : c.isDigit = true := natToChars_all_digit _ c (by rw [hcons]; simp)
  have hcne : c ≠ '-' := by
    intro hc
    rw [hc] at hcdigit
    simp [Char.isDigit] at hcdigit
  have hspan : List.span Char.isDigit ((c :: cs) ++ '\x7d' :: []) = (c :: cs, ['\x7d']) := by
    apply span_prefix
    · intro x hx
      exact natToChars_all_digit _ x (by rw [hcons]; exact hx)
    · decide
  rw [hcons]
  rw [parseIntToken.eq_def]
  split
  · next rest heq =>
    have h1 : c = '-' := by
      have h2 := congrArg List.head? heq
      simpa using h2
    exact absurd h1 hcne
  · next heq =>
    simp only [List.cons_append] at hspan ⊢
    rw [hspan]
    simp only [List.isEmpty_cons, Bool.false_eq_true, if_false]
    rw [← hcons, digitsToNat_natToChars, Int.toNat_of_nonneg h]

theorem jsonParse_payload (key : List Char) (i : Int) (hi : 0 ≤ i)
    (hkey : ∀ c ∈ key, (c != '"') = true) :
    jsonParse ('\x7b' :: '"' :: (key ++ '"' :: ':' :: (intToChars i ++ ['\x7d'])))
      = some (.obj ⟨key⟩ i) := by
  have hspan : List.span (fun c => c != '"') (key ++ '"' :: (':' :: (intToChars i ++ ['\x7d'])))
      = (key, '"' :: (':' :: (intToChars i ++ ['\x7d']))) :=
    span_prefix key '"' _ hkey (by decide)
  simp only [jsonParse, hspan, parseIntToken_canonical i hi]

/-! ### Lemmas: shapes of the canonical cursor strings -/

theorem jsonStringifyPage_eq (p : Int) :
    jsonStringifyPage p
      = '\x7b' :: '"' :: (['p', 'a', 'g', 'e'] ++ '"' :: ':' :: (intToChars p ++ ['\x7d'])) := by
  simp [jsonStringifyPage]

theorem jsonStringifyOffset_eq (o : Int) :
    jsonStringifyOffset o
      = '\x7b' :: '"'
          :: (['o', 'f', 'f', 's', 'e', 't'] ++ '"' :: ':' :: (intToChars o ++ ['\x7d'])) := by
  simp [jsonStringifyOffset]

theorem jsonStringifyPage_ascii (p : Int) : ∀ c ∈ jsonStringifyPage p, c.toNat < 128 := by
  rw [jsonStringifyPage_eq]
  intro c hc
  rcases List.mem_cons.mp hc with rfl | hc
  · decide
  rcases List.mem_cons.mp hc with rfl | hc
  · decide
  rcases List.mem_append.mp hc with hc | hc
  · fin_cases hc <;> decide
  rcases List.mem_cons.mp hc with rfl | hc
  · decide
  rcases List.mem_cons.mp hc with rfl | hc
  · decide
  rcases List.mem_append.mp hc with hc | hc
  · exact intToChars_ascii _ _ hc
  · rcases List.mem_singleton.mp hc with rfl
    decide

theorem jsonStringifyOffset_ascii (o : Int) : ∀ c ∈ jsonStringifyOffset o, c.toNat < 128 := by
  rw [jsonStringifyOffset_eq]
  intro c hc
  rcases List.mem_cons.mp hc with rfl | hc
  · decide
  rcases List.mem_cons.mp hc with rfl | hc
  · decide
  rcases List.mem_append.mp hc with hc | hc
  · fin_cases hc <;> decide
  rcases List.mem_cons.mp hc with rfl | hc
  · decide
  rcases List.mem_cons.mp hc with rfl | hc
  · decide
  rcases List.mem_append.mp hc with hc | hc
  · exact intToChars_ascii _ _ hc
  · rcases List.mem_singleton.mp hc with rfl
    decide

theorem b64urlEncode_brace_head :
    ∀ bs : List Nat, ∃ tl, b64urlEncode (123 :: bs) = 'e' :: tl := by
  intro bs
  match bs with
  | [] => exact ⟨_, rfl⟩
  | [b2] => exact ⟨_, rfl⟩
  | b2 :: b3 :: rest => exact ⟨_, rfl⟩

theorem encodePageCursor_data (v : PageCursor) :
    (encodePageCursor v).data = b64urlEncode (utf8Encode (jsonStringifyPage v.page)) := rfl

theorem encodeTextCursor_data (v : TextCursor) :
    (encodeTextCursor v).data = b64urlEncode (utf8Encode (jsonStringifyOffset v.offset)) := rfl

theorem utf8Encode_jsonStringifyPage_head (p : Int) :
    ∃ rest, utf8Encode (jsonStringifyPage p) = 123 :: rest := by
  rw [jsonStringifyPage_eq]
  exact ⟨_, rfl⟩

theorem utf8Encode_jsonStringifyOffset_head (o : Int) :
    ∃ rest, utf8Encode (jsonStringifyOffset o) = 123 :: rest := by
  rw [jsonStringifyOffset_eq]
  exact ⟨_, rfl⟩

theorem isDigitString_encodePage (v : PageCursor) : isDigitString (encodePageCursor v) = false := by
  obtain ⟨rest, hrest⟩ := utf8Encode_jsonStringifyPage_head v.page
  obtain ⟨tl, htl⟩ := b64urlEncode_brace_head rest
  simp only [isDigitString, encodePageCursor_data, hrest, htl]
  simp [Char.isDigit]

theorem isDigitString_encodeText (v : TextCursor) : isDigitString (encodeTextCursor v) = false := by
  obtain ⟨rest, hrest⟩ := utf8Encode_jsonStringifyOffset_head v.offset
  obtain ⟨tl, htl⟩ := b64urlEncode_brace_head rest
  simp only [isDigitString, encodeTextCursor_data, hrest, htl]
  simp [Char.isDigit]

/-! ### Lemmas: cursor codec round-trips and cross-decodes -/

theorem jsonParse_page (p : Int) (hp : 0 ≤ p) :
    jsonParse (jsonStringifyPage p) = some (.obj "page" p) := by
  rw [jsonStringifyPage_eq]
  exact jsonParse_payload ['p', 'a', 'g', 'e'] p hp (by decide)

theorem jsonParse_offset (o : Int) (ho : 0 ≤ o) :
    jsonParse (jsonStringifyOffset o) = some (.obj "offset" o) := by
  rw [jsonStringifyOffset_eq]
  exact jsonParse_payload ['o', 'f', 'f', 's', 'e', 't'] o ho (by decide)

theorem decode_encode_page (p : Int) (hp : 0 < p) :
    decodePageCursor (.str (encodePageCursor ⟨p⟩)) = .ok ⟨p⟩ := by
  have hdig := isDigitString_encodePage ⟨p⟩
  have hb64 : b64urlDecode (encodePageCursor ⟨p⟩).data = some (utf8Encode (jsonStringifyPage p)) := by
    rw [encodePageCursor_data]
    exact b64url_roundtrip _ (utf8Encode_lt_256 _ (jsonStringifyPage_ascii p))
  have hutf8 := utf8_roundtrip _ (jsonStringifyPage_ascii p)
  have hjson := jsonParse_page p (le_of_lt hp)
  have hzod : zodPagePayload (.obj "page" p) = some ⟨p⟩ := by
    simp [zodPagePayload, hp]
  simp only [decodePageCursor, hdig, Bool.false_eq_true, if_false, hb64, hutf8, hjson, hzod]

theorem decode_encode_offset (o : Int) (ho : 0 ≤ o) :
    decodeTextCursor (.str (encodeTextCursor ⟨o⟩)) = .ok ⟨o⟩ := by
  have hdig := isDigitString_encodeText ⟨o⟩
  have hb64 : b64urlDecode (encodeTextCursor ⟨o⟩).data
      = some (utf8Encode (jsonStringifyOffset o)) := by
    rw [encodeTextCursor_data]
    exact b64url_roundtrip _ (utf8Encode_lt_256 _ (jsonStringifyOffset_ascii o))
  have hutf8 := utf8_roundtrip _ (jsonStringifyOffset_ascii o)
  have hjson := jsonParse_offset o ho
  have hzod : zodOffsetPayload (.obj "offset" o) = some ⟨o⟩ := by
    simp [zodOffsetPayload, ho]
  simp only [decodeTextCursor, hdig, Bool.false_eq_true, if_false, hb64, hutf8, hjson, hzod]

theorem decodeText_encodePage (p : Int) (hp : 0 ≤ p) :
    decodeTextCursor (.str (encodePageCursor ⟨p⟩)) = .error invalidTextCursorMessage := by
  have hdig := isDigitString_encodePage ⟨p⟩
  have hb64 : b64urlDecode (encodePageCursor ⟨p⟩).data = some (utf8Encode (jsonStringifyPage p)) := by
    rw [encodePageCursor_data]
    exact b64url_roundtrip _ (utf8Encode_lt_256 _ (jsonStringifyPage_ascii p))
  have hutf8 := utf8_roundtrip _ (jsonStringifyPage_ascii p)
  have hjson := jsonParse_page p hp
  have hzod : zodOffsetPayload (.obj "page" p) = none := by
    simp [zodOffsetPayload]
  simp only [decodeTextCursor, hdig, Bool.false_eq_true, if_false, hb64, hutf8, hjson, hzod]

theorem decodePage_encodeText (o : Int) (ho : 0 ≤ o) :
    decodePageCursor (.str (encodeTextCursor ⟨o⟩)) = .error invalidPageCursorMessage := by
  have hdig := isDigitString_encodeText ⟨o⟩
  have hb64 : b64urlDecode (encodeTextCursor ⟨o⟩).data
      = some (utf8Encode (jsonStringifyOffset o)) := by
    rw [encodeTextCursor_data]
    exact b64url_roundtrip _ (utf8Encode_lt_256 _ (jsonStringifyOffset_ascii o))
  have hutf8 := utf8_roundtrip _ (jsonStringifyOffset_ascii o)
  have hjson := jsonParse_offset o ho
  have hzod : zodPagePayload (.obj "offset" o) = none := by
    simp [zodPagePayload]
  simp only [decodePageCursor, hdig, Bool.false_eq_true, if_false, hb64, hutf8, hjson, hzod]

/-! ### Lemmas: text chunker -/

theorem textChunk_chunk_eq (text : List Char) (off mc : Int) (hoff : 0 ≤ off) (hmc : 0 < mc) :
    (textChunk text off mc).chunk
      = (text.drop ((min off (text.length : Int)).toNat)).take
          ((min (off + mc) (text.length : Int)).toNat - (min off (text.length : Int)).toNat) := by
  simp only [textChunk, jsSubstring]
  have h1 : max 0 off = off := by omega
  have h2 : min (max off 0) (text.length : Int) = min off (text.length : Int) := by omega
  rw [h1]
  have h3 :
      min (max (min (text.length : Int) (off + mc)) 0) (text.length : Int)
        = min (off + mc) (text.length : Int) := by omega
  rw [h2, h3]
  have h4 : min off (text.length : Int) ≤ min (off + mc) (text.length : Int) := by omega
  have h5 : min (min off (text.length : Int)) (min (off + mc) (text.length : Int))
      = min off (text.length : Int) := by omega
  have h6 : max (min off (text.length : Int)) (min (off + mc) (text.length : Int))
      = min (off + mc) (text.length : Int) := by omega
  rw [h5, h6]
  congr 1
  omega

theorem textChunk_chunk_drop_take (text : List Char) (off mc : Int) (hoff : 0 ≤ off)
    (hmc : 0 < mc) :
    (textChunk text off mc).chunk = (text.drop off.toNat).take mc.toNat := by
  rw [textChunk_chunk_eq text off mc hoff hmc]
  by_cases hle : off ≤ (text.length : Int)
  · have h1 : min off (text.length : Int) = off := by omega
    rw [h1]
    apply List.take_eq_take.mpr
    have hlen : (text.drop off.toNat).length = text.length - off.toNat := by
      simp
    rw [hlen]
    omega
  · have h1 : min off (text.length : Int) = (text.length : Int) := by omega
    have h2 : min (off + mc) (text.length : Int) = (text.length : Int) := by omega
    rw [h1, h2]
    rw [List.drop_eq_nil_of_le (by omega), List.drop_eq_nil_of_le (by omega)]
    simp

theorem textChunk_nextOffset_eq (text : List Char) (off mc : Int) (hoff : 0 ≤ off) :
    (textChunk text off mc).nextOffset
      = if off + mc < (text.length : Int) then some (off + mc) else none := by
  simp only [textChunk]
  have h1 : max 0 off = off := by omega
  rw [h1]
  by_cases h : off + mc < (text.length : Int)
  · rw [if_pos h, if_pos (by omega)]
    congr 1
    omega
  · rw [if_neg h, if_neg (by omega)]

theorem textChunk_nextCursor_eq (text : List Char) (off mc : Int) (hoff : 0 ≤ off) :
    (textChunk text off mc).nextCursor
      = if off + mc < (text.length : Int) then some (encodeTextCursor ⟨off + mc⟩) else none := by
  have h := textChunk_nextOffset_eq text off mc hoff
  simp only [textChunk] at h ⊢
  by_cases hlt : off + mc < (text.length : Int)
  · rw [if_pos hlt] at h
    rw [h, if_pos hlt]
  · rw [if_neg hlt] at h
    rw [h, if_neg hlt]

theorem followChunks_drop :
    ∀ (fuel : Nat) (text : List Char) (N off : Int), 0 < N → 0 ≤ off →
      off ≤ (text.length : Int) → (text.length : Int) - off ≤ (fuel : Int) →
      followChunks fuel text N off = text.drop off.toNat := by
  intro fuel
  induction fuel with
  | zero =>
    intro text N off hN hoff hle hfuel
    have hnil : text.drop off.toNat = [] := List.drop_eq_nil_of_le (by omega)
    simp [followChunks, hnil]
  | succ fuel ih =>
    intro text N off hN hoff hle hfuel
    simp only [followChunks]
    rw [textChunk_nextCursor_eq text off N hoff]
    by_cases hlt : off + N < (text.length : Int)
    · rw [if_pos hlt]
      simp only [decode_encode_offset (off + N) (by omega)]
      rw [textChunk_chunk_drop_take text off N hoff hN]
      rw [ih text N (off + N) hN (by omega) (by omega) (by omega)]
      have hsum : (off + N).toNat = off.toNat + N.toNat := by omega
      rw [hsum, ← List.drop_drop, List.take_append_drop]
    · rw [if_neg hlt]
      rw [textChunk_chunk_drop_take text off N hoff hN]
      apply List.take_of_length_le
      simp
      omega

/-! ### Lemmas: deterministic sorter -/

theorem lexCmp_neg (p q : Int × Int) : lexCmp p q = -lexCmp q p := by
  simp only [lexCmp]
  split_ifs <;> omega

theorem lexCmp_zero_iff (p q : Int × Int) : lexCmp p q = 0 ↔ p = q := by
  rw [Prod.ext_iff]
  simp only [lexCmp]
  split_ifs <;> omega

theorem lexCmp_trans {p q r : Int × Int} (h1 : lexCmp p q ≤ 0) (h2 : lexCmp q r ≤ 0) :
    lexCmp p r ≤ 0 := by
  simp only [lexCmp] at h1 h2 ⊢
  split_ifs at h1 h2 ⊢ <;> omega

theorem lexCmp_total (p q : Int × Int) : lexCmp p q ≤ 0 ∨ lexCmp q p ≤ 0 := by
  simp only [lexCmp]
  split_ifs <;> omega

theorem taskCmp_eq_lexCmp (mode : SortMode) (h : mode ≠ .api) (a b : Task) :
    taskCmp mode a b = lexCmp (cmpKey mode a) (cmpKey mode b) := by
  cases mode <;>
    first
      | exact absurd rfl h
      | (simp only [taskCmp, cmpKey, isDescMode, primaryKey, lexCmp, Bool.false_eq_true,
           if_false, if_true]
         try split_ifs <;> omega)

theorem cmpKey_id_eq (mode : SortMode) {x y : Task} (h : cmpKey mode x = cmpKey mode y) :
    x.id = y.id := by
  simp only [cmpKey] at h
  by_cases hd : isDescMode mode = true
  · rw [if_pos hd, if_pos hd] at h
    have := congrArg Prod.snd h
    simpa using this
  · rw [if_neg hd, if_neg hd] at h
    have := congrArg Prod.snd h
    simpa using this

theorem sortTasks_eq_insertionSort (mode : SortMode) (h : mode ≠ .api) (l : List Task) :
    sortTasks l mode = List.insertionSort (fun x y => taskCmp mode x y ≤ 0) l := by
  cases mode <;> first | exact absurd rfl h | rfl

theorem eq_of_perm_of_sorted_on {α : Type} {le : α → α → Prop} :
    ∀ {l₁ l₂ : List α}, l₁.Perm l₂ → l₁.Sorted le → l₂.Sorted le →
      (∀ a ∈ l₁, ∀ b ∈ l₁, le a b → le b a → a = b) → l₁ = l₂ := by
  intro l₁
  induction l₁ with
  | nil =>
    intro l₂ hp _ _ _
    exact hp.nil_eq
  | cons a t ih =>
    intro l₂ hp hs₁ hs₂ hanti
    cases l₂ with
    | nil => exact (List.cons_ne_nil a t hp.eq_nil).elim
    | cons b t₂ =>
      have hab : a = b := by
        have ha2 : a ∈ b :: t₂ := hp.subset (List.mem_cons_self a t)
        have hb1 : b ∈ a :: t := hp.symm.subset (List.mem_cons_self b t₂)
        rcases List.mem_cons.mp ha2 with h | ha2'
        · exact h
        rcases List.mem_cons.mp hb1 with h | hb1'
        · exact h.symm
        have hle1 : le a b := (List.sorted_cons.mp hs₁).1 b hb1'
        have hle2 : le b a := (List.sorted_cons.mp hs₂).1 a ha2'
        exact hanti a (List.mem_cons_self a t) b (List.mem_cons.mpr (Or.inr hb1')) hle1 hle2
      subst hab
      have ht : t.Perm t₂ := hp.cons_inv
      have heq := ih ht (List.sorted_cons.mp hs₁).2 (List.sorted_cons.mp hs₂).2
        (fun x hx y hy h1 h2 =>
          hanti x (List.mem_cons.mpr (Or.inr hx)) y (List.mem_cons.mpr (Or.inr hy)) h1 h2)
      rw [heq]

theorem sortTasks_perm_eq (mode : SortMode) (h : mode ≠ .api) (l₁ l₂ : List Task)
    (hp : l₁.Perm l₂) (hid : ∀ a ∈ l₁, ∀ b ∈ l₁, a.id = b.id → a = b) :
    sortTasks l₁ mode = sortTasks l₂ mode := by
  have hle : ∀ a b : Task,
      taskCmp mode a b ≤ 0 ↔ lexCmp (cmpKey mode a) (cmpKey mode b) ≤ 0 := by
    intro a b
    rw [taskCmp_eq_lexCmp mode h]
  haveI htot : IsTotal Task (fun x y => taskCmp mode x y ≤ 0) :=
    ⟨fun a b => by
      show taskCmp mode a b ≤ 0 ∨ taskCmp mode b a ≤ 0
      rw [hle a b, hle b a]
      exact lexCmp_total _ _⟩
  haveI htrans : IsTrans Task (fun x y => taskCmp mode x y ≤ 0) :=
    ⟨fun a b c hab hbc => by
      show taskCmp mode a c ≤ 0
      have hab' : taskCmp mode a b ≤ 0 := hab
      have hbc' : taskCmp mode b c ≤ 0 := hbc
      rw [hle a c]
      rw [hle a b] at hab'
      rw [hle b c] at hbc'
      exact lexCmp_trans hab' hbc'⟩
  rw [sortTasks_eq_insertionSort mode h, sortTasks_eq_insertionSort mode h]
  have hperm1 := List.perm_insertionSort (fun x y => taskCmp mode x y ≤ 0) l₁
  have hperm2 := List.perm_insertionSort (fun x y => taskCmp mode x y ≤ 0) l₂
  apply eq_of_perm_of_sorted_on (hperm1.trans (hp.trans hperm2.symm))
    (List.sorted_insertionSort _ l₁) (List.sorted_insertionSort _ l₂)
  intro x hx y hy h1 h2
  have hx1 : x ∈ l₁ := hperm1.subset hx
  have hy1 : y ∈ l₁ := hperm1.subset hy
  have hzero : taskCmp mode x y = 0 := by
    have hneg : taskCmp mode x y = -taskCmp mode y x := by
      rw [taskCmp_eq_lexCmp mode h, taskCmp_eq_lexCmp mode h, lexCmp_neg]
    omega
  have hkey : cmpKey mode x = cmpKey mode y := by
    rw [taskCmp_eq_lexCmp mode h] at hzero
    exact (lexCmp_zero_iff _ _).mp hzero
  exact hid x hx1 y hy1 (cmpKey_id_eq mode hkey)

/-! ### Lemmas: rendered number strings and line shapes -/

theorem intToChars_mem (i : Int) : ∀ c ∈ intToChars i, c = '-' ∨ c.isDigit = true := by
  intro c hc
  simp only [intToChars] at hc
  by_cases hi : i < 0
  · rw [if_pos hi] at hc
    rcases List.mem_cons.mp hc with rfl | hc
    · exact Or.inl rfl
    · exact Or.inr (natToChars_all_digit _ _ hc)
  · rw [if_neg hi] at hc
    exact Or.inr (natToChars_all_digit _ _ hc)

theorem str_ne_of_getElem (s t : String) (k : Nat) (h : s.data[k]? ≠ t.data[k]?) : s ≠ t :=
  fun he => h (by rw [he])

theorem append_jsNum_ne_append_null (pre : String) (i : Int) :
    pre ++ jsNumToString i ≠ pre ++ "null" := by
  intro he
  have hd : pre.data ++ (jsNumToString i).data = pre.data ++ "null".data := by
    rw [← String.data_append, ← String.data_append, he]
  have h2 : (jsNumToString i).data = "null".data := List.append_cancel_left hd
  have h3 : intToChars i = ['n', 'u', 'l', 'l'] := h2
  have h4 := intToChars_mem i 'n' (by rw [h3]; simp)
  rcases h4 with h4 | h4
  · exact absurd h4 (by decide)
  · exact absurd h4 (by decide)

theorem encodePageCursor_head (v : PageCursor) : (encodePageCursor v).data[0]? = some 'e' := by
  obtain ⟨rest, hr⟩ := utf8Encode_jsonStringifyPage_head v.page
  obtain ⟨tl, htl⟩ := b64urlEncode_brace_head rest
  rw [encodePageCursor_data, hr, htl]
  simp

theorem data_append_eq (a b : String) : (a ++ b).data = a.data ++ b.data :=
  String.data_append a b

/-! ### Lemmas: association lists -/

theorem alGet_alSet_self {κ ν : Type} [DecidableEq κ] :
    ∀ (m : List (κ × ν)) (k : κ) (v : ν), alGet (alSet m k v) k = some v := by
  intro m
  induction m with
  | nil => intro k v; simp [alGet, alSet]
  | cons h t ih =>
    intro k v
    obtain ⟨k', v'⟩ := h
    simp only [alSet]
    by_cases hk : k' = k
    · rw [if_pos hk]
      simp [alGet]
    · rw [if_neg hk]
      simp only [alGet, if_neg hk]
      exact ih k v

/-! ### Lemmas: comments pagination -/

theorem jsArraySlice_nonneg {α : Type} (l : List α) (a b : Int) (ha : 0 ≤ a) (hab : a ≤ b) :
    jsArraySlice l a b = (l.drop a.toNat).take (b - a).toNat := by
  simp only [jsArraySlice]
  rw [if_neg (by omega), if_neg (by omega)]
  by_cases hle : a ≤ (l.length : Int)
  · have h1 : min a (l.length : Int) = a := by omega
    rw [h1]
    apply List.take_eq_take.mpr
    have hlen : (l.drop a.toNat).length = l.length - a.toNat := by simp
    rw [hlen]
    omega
  · have h1 : min a (l.length : Int) = (l.length : Int) := by omega
    have h2 : min b (l.length : Int) = (l.length : Int) := by omega
    rw [h1, h2]
    rw [List.drop_eq_nil_of_le (by omega), List.drop_eq_nil_of_le (by omega)]
    simp

theorem comments_list_slice_eq {α : Type} (comments : List α) (p ps : Int) (hp : 1 ≤ p)
    (hps : 0 < ps) :
    (comments_list comments p ps).slice
      = (comments.drop ((p - 1) * ps).toNat).take ps.toNat := by
  simp only [comments_list]
  rw [jsArraySlice_nonneg comments ((p - 1) * ps) ((p - 1) * ps + ps)
    (mul_nonneg (by omega) (by omega)) (by omega)]
  congr 1
  omega

theorem comments_list_nextPage_eq {α : Type} (comments : List α) (p ps : Int) :
    (comments_list comments p ps).nextPage
      = if p * ps < (comments.length : Int) then some (p + 1) else none := by
  simp only [comments_list]
  have h : (p - 1) * ps + ps = p * ps := by ring
  rw [h]

theorem commentsPagesConcat_take {α : Type} (comments : List α) (ps : Int) (hps : 0 < ps) :
    ∀ P : Nat, commentsPagesConcat comments ps P = comments.take (P * ps.toNat) := by
  intro P
  induction P with
  | zero => simp [commentsPagesConcat]
  | succ P ih =>
    simp only [commentsPagesConcat, List.range_succ, List.map_append, List.map_cons,
      List.map_nil, List.flatten_append, List.flatten_cons, List.flatten_nil,
      List.append_nil] at ih ⊢
    rw [ih]
    rw [comments_list_slice_eq comments ((P : Int) + 1) ps (by omega) hps]
    have h1 : (((P : Int) + 1 - 1) * ps).toNat = P * ps.toNat := by
      have e1 : ((P : Int) + 1 - 1) * ps = (P : Int) * ps := by ring
      have e2 : (P : Int) * ps = ((P * ps.toNat : Nat) : Int) := by
        push_cast
        rw [Int.toNat_of_nonneg (le_of_lt hps)]
      rw [e1, e2, Int.toNat_natCast]
    rw [h1]
    rw [← List.take_add]
    congr 1
    ring

/-! ### Lemmas: tasks_list navigation -/

theorem append_getElem_lt (a b : String) (k : Nat) (hk : k < a.data.length) :
    (a ++ b).data[k]? = a.data[k]? := by
  rw [data_append_eq, List.getElem?_append, if_pos hk]

theorem append_getElem_ge (a b : String) (k : Nat) (hk : a.data.length ≤ k) :
    (a ++ b).data[k]? = b.data[k - a.data.length]? := by
  rw [data_append_eq, List.getElem?_append, if_neg (by omega)]

theorem line_ne_target (pre suf T : String) (k : Nat) (hk : k < pre.data.length)
    (hne : pre.data[k]? ≠ T.data[k]?) : pre ++ suf ≠ T := by
  apply str_ne_of_getElem
  rw [append_getElem_lt pre suf k hk]
  exact hne

theorem encode_line_ne (pre : String) (v : PageCursor) (T : String)
    (h : some 'e' ≠ T.data[pre.data.length]?) : pre ++ encodePageCursor v ≠ T := by
  apply str_ne_of_getElem _ _ pre.data.length
  rw [append_getElem_ge pre _ _ (le_refl _)]
  simp only [Nat.sub_self]
  rw [encodePageCursor_head]
  exact h

theorem tasksListNavCore_lines_mem (cp : Int) (tp : Option Int) (l : String)
    (hl : l ∈ (tasksListNavCore cp tp).lines) :
    l = "cursor: " ++ encodePageCursor ⟨cp⟩
      ∨ (∃ np : Int, l = "next_page: " ++ jsNumToString np)
      ∨ (∃ pp : Int, l = "prev_page: " ++ jsNumToString pp)
      ∨ (∃ v : PageCursor, l = "next_cursor: " ++ encodePageCursor v)
      ∨ (∃ v : PageCursor, l = "prev_cursor: " ++ encodePageCursor v) := by
  have haux : ∀ (X : Option Int) (f : Int → String),
      l ∈ (match X with
           | some np => if np ≠ 0 then [f np] else []
           | none => ([] : List String)) → ∃ np : Int, l = f np := by
    intro X f hX
    rcases X with _ | np
    · simp at hX
    · dsimp only at hX
      split at hX
      · exact ⟨np, by simpa using hX⟩
      · simp at hX
  have haux2 : ∀ (X : Option Int) (g : String → String),
      l ∈ (match (match X with
                  | some np => if np ≠ 0 then some (encodePageCursor ⟨np⟩) else none
                  | none => (none : Option String)) with
           | some c => [g c]
           | none => ([] : List String)) → ∃ v : PageCursor, l = g (encodePageCursor v) := by
    intro X g hX
    rcases X with _ | np
    · simp at hX
    · dsimp only at hX
      by_cases hnp : np ≠ 0
      · rw [if_pos hnp] at hX
        dsimp only at hX
        exact ⟨⟨np⟩, by simpa using hX⟩
      · rw [if_neg hnp] at hX
        simp at hX
  simp only [tasksListNavCore, List.mem_append] at hl
  rcases hl with ⟨⟨⟨hl | hl⟩ | hl⟩ | hl⟩ | hl
  · exact Or.inl (by simpa using hl)
  · exact Or.inr (Or.inl (haux _ _ hl))
  · exact Or.inr (Or.inr (Or.inl (haux _ _ hl)))
  · exact Or.inr (Or.inr (Or.inr (Or.inl (haux2 _ _ hl))))
  · exact Or.inr (Or.inr (Or.inr (Or.inr (haux2 _ _ hl))))

theorem tasksListNavCore_no_null (cp : Int) (tp : Option Int) :
    "next_page: null" ∉ (tasksListNavCore cp tp).lines
    ∧ "prev_page: null" ∉ (tasksListNavCore cp tp).lines
    ∧ "next_cursor: null" ∉ (tasksListNavCore cp tp).lines
    ∧ "prev_cursor: null" ∉ (tasksListNavCore cp tp).lines := by
  refine ⟨?_, ?_, ?_, ?_⟩ <;> intro hmem
  · rcases tasksListNavCore_lines_mem _ _ _ hmem with h | ⟨np, h⟩ | ⟨pp, h⟩ | ⟨v, h⟩ | ⟨v, h⟩
    · exact line_ne_target "cursor: " _ _ 0 (by decide) (by decide) h.symm
    · exact append_jsNum_ne_append_null "next_page: " np (h.symm.trans rfl)
    · exact line_ne_target "prev_page: " _ _ 0 (by decide) (by decide) h.symm
    · exact line_ne_target "next_cursor: " _ _ 5 (by decide) (by decide) h.symm
    · exact line_ne_target "prev_cursor: " _ _ 0 (by decide) (by decide) h.symm
  · rcases tasksListNavCore_lines_mem _ _ _ hmem with h | ⟨np, h⟩ | ⟨pp, h⟩ | ⟨v, h⟩ | ⟨v, h⟩
    · exact line_ne_target "cursor: " _ _ 0 (by decide) (by decide) h.symm
    · exact line_ne_target "next_page: " _ _ 0 (by decide) (by decide) h.symm
    · exact append_jsNum_ne_append_null "prev_page: " pp (h.symm.trans rfl)
    · exact line_ne_target "next_cursor: " _ _ 0 (by decide) (by decide) h.symm
    · exact line_ne_target "prev_cursor: " _ _ 5 (by decide) (by decide) h.symm
  · rcases tasksListNavCore_lines_mem _ _ _ hmem with h | ⟨np, h⟩ | ⟨pp, h⟩ | ⟨v, h⟩ | ⟨v, h⟩
    · exact line_ne_target "cursor: " _ _ 0 (by decide) (by decide) h.symm
    · exact line_ne_target "next_page: " _ _ 5 (by decide) (by decide) h.symm
    · exact line_ne_target "prev_page: " _ _ 0 (by decide) (by decide) h.symm
    · exact encode_line_ne "next_cursor: " v _ (by decide) h.symm
    · exact line_ne_target "prev_cursor: " _ _ 0 (by decide) (by decide) h.symm
  · rcases tasksListNavCore_lines_mem _ _ _ hmem with h | ⟨np, h⟩ | ⟨pp, h⟩ | ⟨v, h⟩ | ⟨v, h⟩
    · exact line_ne_target "cursor: " _ _ 0 (by decide) (by decide) h.symm
    · exact line_ne_target "next_page: " _ _ 0 (by decide) (by decide) h.symm
    · exact line_ne_target "prev_page: " _ _ 5 (by decide) (by decide) h.symm
    · exact line_ne_target "next_cursor: " _ _ 0 (by decide) (by decide) h.symm
    · exact encode_line_ne "prev_cursor: " v _ (by decide) h.symm

theorem tasksListNavCore_nextPage_iff (cp : Int) (tp : Option Int) :
    (tasksListNavCore cp tp).nextPage ≠ none ↔ ∃ t, tp = some t ∧ t ≠ 0 ∧ cp < t := by
  rcases tp with _ | t
  · simp [tasksListNavCore]
  · by_cases h : t ≠ 0 ∧ cp < t
    · constructor
      · intro
        exact ⟨t, rfl, h.1, h.2⟩
      · intro
        simp only [tasksListNavCore]
        rw [if_pos h]
        simp
    · constructor
      · intro hne
        exfalso
        apply hne
        simp only [tasksListNavCore]
        rw [if_neg h]
      · rintro ⟨t', ht', h1, h2⟩
        injection ht' with ht''
        subst ht''
        exact absurd ⟨h1, h2⟩ h

theorem tasksListNavCore_cursor_line_mem (cp : Int) (tp : Option Int) :
    ("cursor: " ++ (tasksListNavCore cp tp).cursor) ∈ (tasksListNavCore cp tp).lines := by
  simp only [tasksListNavCore, List.mem_append]
  exact Or.inl (Or.inl (Or.inl (Or.inl (List.mem_singleton.mpr rfl))))

/-! ### Remaining small helpers -/

theorem cmpKey_primary_eq (mode : SortMode) {x y : Task} (h : cmpKey mode x = cmpKey mode y) :
    primaryKey mode x = primaryKey mode y := by
  simp only [cmpKey] at h
  by_cases hd : isDescMode mode = true
  · rw [if_pos hd, if_pos hd] at h
    have h2 := congrArg Prod.fst h
    simpa using h2
  · rw [if_neg hd, if_neg hd] at h
    have h2 := congrArg Prod.fst h
    simpa using h2

theorem zodPagePayload_pos {j : Json} {pc : PageCursor} (h : zodPagePayload j = some pc) :
    0 < pc.page := by
  cases j with
  | num v => simp [zodPagePayload] at h
  | obj k v =>
    simp only [zodPagePayload] at h
    split_ifs at h with hc
    obtain rfl : (⟨v⟩ : PageCursor) = pc := by simpa using h
    exact hc.2

theorem zodOffsetPayload_nonneg {j : Json} {tc : TextCursor} (h : zodOffsetPayload j = some tc) :
    0 ≤ tc.offset := by
  cases j with
  | num v => simp [zodOffsetPayload] at h
  | obj k v =>
    simp only [zodOffsetPayload] at h
    split_ifs at h with hc
    obtain rfl : (⟨v⟩ : TextCursor) = tc := by simpa using h
    exact hc.2

/-! ### The claims -/

/-- C1: for every text and every maxChars N at least 1, starting from
textChunk at offset 0 and repeatedly decoding the emitted next cursor
through decodeTextCursor and chunking at the decoded offset until the next
cursor is absent, the concatenated chunks reconstruct the text exactly
(text.length iterations always suffice for the loop to reach the end). -/
theorem claim1_chunk_roundtrip (text : List Char) (N : Int) (hN : 0 < N) :
    followChunks text.length text N 0 = text := by
  have h := followChunks_drop text.length text N 0 hN (le_refl 0) (by positivity) (by omega)
  simpa using h

theorem claim1_chunk_roundtrip_witness :
    (0 : Int) < 5
      ∧ followChunks ("hello world".data.length) "hello world".data 5 0 = "hello world".data :=
  ⟨by decide, claim1_chunk_roundtrip "hello world".data 5 (by decide)⟩

/-- C2: decoding an encoded page payload with positive page, or an encoded
offset payload with non-negative offset, returns the payload unchanged. -/
theorem claim2_cursor_codec_roundtrip :
    (∀ p : Int, 0 < p → decodePageCursor (.str (encodePageCursor ⟨p⟩)) = .ok ⟨p⟩)
    ∧ (∀ o : Int, 0 ≤ o → decodeTextCursor (.str (encodeTextCursor ⟨o⟩)) = .ok ⟨o⟩) :=
  ⟨decode_encode_page, decode_encode_offset⟩

theorem claim2_cursor_codec_roundtrip_witness :
    ((0 : Int) < 37 ∧ decodePageCursor (.str (encodePageCursor ⟨37⟩)) = .ok ⟨37⟩)
    ∧ ((0 : Int) ≤ 0 ∧ decodeTextCursor (.str (encodeTextCursor ⟨0⟩)) = .ok ⟨0⟩) :=
  ⟨⟨by decide, claim2_cursor_codec_roundtrip.1 37 (by decide)⟩,
   ⟨by decide, claim2_cursor_codec_roundtrip.2 0 (by decide)⟩⟩

/-- C3: every ordered sort mode compares primarily by its named field in the
requested direction and breaks exact ties by the unique id in the same
direction, so the comparator vanishes only when primary field and id agree,
and the sorted output is determined by the multiset of (id-distinct) input
items, independent of input order. -/
theorem claim3_sortTasks_deterministic (mode : SortMode) (hmode : mode ≠ .api) :
    (∀ a b : Task, taskCmp mode a b = 0 → primaryKey mode a = primaryKey mode b ∧ a.id = b.id)
    ∧ (∀ a b : Task, primaryKey mode a = primaryKey mode b →
        taskCmp mode a b = if isDescMode mode then b.id - a.id else a.id - b.id)
    ∧ (∀ a b : Task, primaryKey mode a ≠ primaryKey mode b →
        taskCmp mode a b = if isDescMode mode
          then primaryKey mode b - primaryKey mode a
          else primaryKey mode a - primaryKey mode b)
    ∧ (∀ l₁ l₂ : List Task, l₁.Perm l₂ → (∀ a ∈ l₁, ∀ b ∈ l₁, a.id = b.id → a = b) →
        sortTasks l₁ mode = sortTasks l₂ mode) := by
  refine ⟨?_, ?_, ?_, fun l₁ l₂ hp hid => sortTasks_perm_eq mode hmode l₁ l₂ hp hid⟩
  · intro a b h0
    rw [taskCmp_eq_lexCmp mode hmode] at h0
    have hk := (lexCmp_zero_iff _ _).mp h0
    exact ⟨cmpKey_primary_eq mode hk, cmpKey_id_eq mode hk⟩
  · intro a b hpe
    cases mode <;>
      first
        | exact absurd rfl hmode
        | (simp only [primaryKey] at hpe
           simp only [taskCmp, isDescMode, primaryKey, Bool.false_eq_true, if_false, if_true,
             eq_self_iff_true]
           try split_ifs <;> omega)
  · intro a b hpe
    cases mode <;>
      first
        | exact absurd rfl hmode
        | (simp only [primaryKey] at hpe
           simp only [taskCmp, isDescMode, primaryKey, Bool.false_eq_true, if_false, if_true,
             eq_self_iff_true]
           try split_ifs <;> omega)

theorem claim3_sortTasks_deterministic_witness :
    SortMode.updated_at_desc ≠ SortMode.api
    ∧ sortTasks [⟨1, 1, 5, 5⟩, ⟨2, 2, 5, 5⟩] .updated_at_desc
        = sortTasks [⟨2, 2, 5, 5⟩, ⟨1, 1, 5, 5⟩] .updated_at_desc := by
  refine ⟨by decide, ?_⟩
  exact (claim3_sortTasks_deterministic .updated_at_desc (by decide)).2.2.2
    [⟨1, 1, 5, 5⟩, ⟨2, 2, 5, 5⟩] [⟨2, 2, 5, 5⟩, ⟨1, 1, 5, 5⟩]
    (List.Perm.swap _ _ _) (by decide)

/-- C4: for non-negative offset and positive maxChars, the chunk is the
slice of the text from the clamped offset to min(offset+maxChars, length),
and nextOffset is that end exactly when it is strictly below the length,
null exactly when offset+maxChars reaches the end. -/
theorem claim4_textChunk_window (text : List Char) (off mc : Int) (hoff : 0 ≤ off)
    (hmc : 0 < mc) :
    (textChunk text off mc).chunk
      = (text.drop ((min off (text.length : Int)).toNat)).take
          ((min (off + mc) (text.length : Int)).toNat - (min off (text.length : Int)).toNat)
    ∧ (textChunk text off mc).nextOffset
      = if off + mc < (text.length : Int) then some (off + mc) else none :=
  ⟨textChunk_chunk_eq text off mc hoff hmc, textChunk_nextOffset_eq text off mc hoff⟩

theorem claim4_textChunk_window_witness :
    (0 : Int) ≤ 5 ∧ (0 : Int) < 5
    ∧ (textChunk "hello world".data 5 5).chunk = " worl".data
    ∧ (textChunk "hello world".data 5 5).nextOffset = some 10 := by
  have h := claim4_textChunk_window "hello world".data 5 5 (by decide) (by decide)
  refine ⟨by decide, by decide, ?_, ?_⟩
  · rw [h.1]
    decide
  · rw [h.2]
    decide

/-- C5 counterexample: decodePageCursor accepts the bare digit string 0 and
returns a page payload of 0 instead of failing, although 0 is not a
positive page. -/
theorem claim5_counterexample_bare_zero :
    decodePageCursor (.str "0") = .ok ⟨0⟩ ∧ ¬(0 : Int) < (0 : Int) :=
  ⟨rfl, by decide⟩

/-- C5 (amended): only the opaque-decode path enforces the payload shape —
a string that is not all digits decodes successfully only to a positive
page (page decoder) or a non-negative offset (text decoder) — while bare
integers, as numbers or all-digit strings, are accepted as-is with no shape
check, which is why the bare string 0 yields page 0. -/
theorem claim5_amended_shape_enforcement :
    (∀ s : String, isDigitString s = false →
       ∀ pc, decodePageCursor (.str s) = .ok pc → 0 < pc.page)
    ∧ (∀ s : String, isDigitString s = false →
       ∀ tc, decodeTextCursor (.str s) = .ok tc → 0 ≤ tc.offset)
    ∧ (∀ n : Int, decodePageCursor (.num n) = .ok ⟨n⟩)
    ∧ (∀ s : String, isDigitString s = true →
       decodePageCursor (.str s) = .ok ⟨(digitsToNat s.data : Int)⟩)
    ∧ (∀ s : String, isDigitString s = true →
       decodeTextCursor (.str s) = .ok ⟨(digitsToNat s.data : Int)⟩) := by
  refine ⟨?_, ?_, fun n => rfl, ?_, ?_⟩
  · intro s hs pc h
    simp only [decodePageCursor, hs, Bool.false_eq_true, if_false] at h
    rcases hb : b64urlDecode s.data with _ | bytes
    · simp [hb] at h
    rcases hu : utf8Decode bytes with _ | cs
    · simp [hb, hu] at h
    rcases hj : jsonParse cs with _ | j
    · simp [hb, hu, hj] at h
    rcases hz : zodPagePayload j with _ | pc2
    · simp [hb, hu, hj, hz] at h
    simp only [hb, hu, hj, hz, Except.ok.injEq] at h
    subst h
    exact zodPagePayload_pos hz
  · intro s hs tc h
    simp only [decodeTextCursor, hs, Bool.false_eq_true, if_false] at h
    rcases hb : b64urlDecode s.data with _ | bytes
    · simp [hb] at h
    rcases hu : utf8Decode bytes with _ | cs
    · simp [hb, hu] at h
    rcases hj : jsonParse cs with _ | j
    · simp [hb, hu, hj] at h
    rcases hz : zodOffsetPayload j with _ | tc2
    · simp [hb, hu, hj, hz] at h
    simp only [hb, hu, hj, hz, Except.ok.injEq] at h
    subst h
    exact zodOffsetPayload_nonneg hz
  · intro s hs
    simp [decodePageCursor, hs]
  · intro s hs
    simp [decodeTextCursor, hs]

theorem claim5_amended_shape_enforcement_witness :
    (isDigitString (encodePageCursor ⟨3⟩) = false ∧ 0 < (PageCursor.mk 3).page)
    ∧ (isDigitString "37" = true
        ∧ decodePageCursor (.str "37") = .ok ⟨(digitsToNat "37".data : Int)⟩) :=
  ⟨⟨by decide,
    claim5_amended_shape_enforcement.1 (encodePageCursor ⟨3⟩) (by decide) ⟨3⟩ (by rfl)⟩,
   ⟨by decide, claim5_amended_shape_enforcement.2.2.2.1 "37" (by decide)⟩⟩

/-- C6: an encoded page cursor never decodes through the text decoder and
an encoded text cursor never decodes through the page decoder — each fails
with the InvalidCursor error of the decoder that received it. -/
theorem claim6_cursor_spaces_disjoint :
    (∀ p : Int, 0 < p →
       decodeTextCursor (.str (encodePageCursor ⟨p⟩)) = .error invalidTextCursorMessage)
    ∧ (∀ o : Int, 0 ≤ o →
       decodePageCursor (.str (encodeTextCursor ⟨o⟩)) = .error invalidPageCursorMessage) :=
  ⟨fun p hp => decodeText_encodePage p (le_of_lt hp), decodePage_encodeText⟩

theorem claim6_cursor_spaces_disjoint_witness :
    ((0 : Int) < 1
      ∧ decodeTextCursor (.str (encodePageCursor ⟨1⟩)) = .error invalidTextCursorMessage)
    ∧ ((0 : Int) ≤ 0
      ∧ decodePageCursor (.str (encodeTextCursor ⟨0⟩)) = .error invalidPageCursorMessage) :=
  ⟨⟨by decide, claim6_cursor_spaces_disjoint.1 1 (by decide)⟩,
   ⟨by decide, claim6_cursor_spaces_disjoint.2 0 (by decide)⟩⟩

/-- C7: on an uncached project the first getColumnMappings call performs
exactly one fetch and stores both direction maps keyed by the project id;
any later call for that project answers from the cache with zero fetches
and an unchanged state; and a failed fetch propagates the error with the
cache unchanged, so a retry fetches again. -/
theorem claim7_column_cache (st : ClientState) (pid : Int) (cols : List Column) (e : String)
    (h : alGet st.columnCache pid = none) :
    getColumnMappings (.ok cols) st pid
        = .ok ((buildColumnMaps cols).1, (buildColumnMaps cols).2,
            ⟨alSet st.columnCache pid (buildColumnMaps cols).1,
             alSet st.columnNameToIdCache pid (buildColumnMaps cols).2⟩, 1)
    ∧ (∀ fetch2 : Except String (List Column),
        getColumnMappings fetch2
            ⟨alSet st.columnCache pid (buildColumnMaps cols).1,
             alSet st.columnNameToIdCache pid (buildColumnMaps cols).2⟩ pid
          = .ok ((buildColumnMaps cols).1, (buildColumnMaps cols).2,
              ⟨alSet st.columnCache pid (buildColumnMaps cols).1,
               alSet st.columnNameToIdCache pid (buildColumnMaps cols).2⟩, 0))
    ∧ getColumnMappings (.error e) st pid = .error e := by
  refine ⟨?_, ?_, ?_⟩
  · simp only [getColumnMappings, h]
    rw [alGet_alSet_self, alGet_alSet_self]
    rfl
  · intro fetch2
    simp only [getColumnMappings]
    rw [alGet_alSet_self]
    simp only [Option.getD_some]
    rw [alGet_alSet_self]
    rfl
  · simp only [getColumnMappings, h]

theorem claim7_column_cache_witness :
    alGet (ClientState.mk [] []).columnCache 1 = none
    ∧ getColumnMappings (.ok [⟨1, "todo"⟩]) ⟨[], []⟩ 1
        = .ok ((buildColumnMaps [⟨1, "todo"⟩]).1, (buildColumnMaps [⟨1, "todo"⟩]).2,
            ⟨alSet (ClientState.mk [] []).columnCache 1 (buildColumnMaps [⟨1, "todo"⟩]).1,
             alSet (ClientState.mk [] []).columnNameToIdCache 1
               (buildColumnMaps [⟨1, "todo"⟩]).2⟩, 1) :=
  ⟨rfl, (claim7_column_cache ⟨[], []⟩ 1 [⟨1, "todo"⟩] "boom" rfl).1⟩

/-- C8 counterexample: with no meta block (so no known total-page count) and
requested page 2, the handler still computes and emits prev_page 1, so the
previous-page values do not require a known total-page count. -/
theorem claim8_counterexample_prev_without_total :
    (tasksListNav none 2).totalPages = none
    ∧ (tasksListNav none 2).prevPage = some 1
    ∧ "prev_page: 1" ∈ (tasksListNav none 2).lines := by
  refine ⟨rfl, by decide, by decide⟩

/-- C8 (amended): the response always carries a cursor for the fetched
page; next_page and next_cursor are computed only when the remote reports a
truthy total-page count with the current page before it, while prev_page
and prev_cursor are computed whenever the current page exceeds 1 regardless
of the total-page count; and none of the four navigation lines is ever
emitted as a null placeholder. -/
theorem claim8_amended_nav_contract (meta : Option TasksMeta) (page : Int) :
    (tasksListNav meta page).cursor = encodePageCursor ⟨(tasksListNav meta page).currentPage⟩
    ∧ ("cursor: " ++ (tasksListNav meta page).cursor) ∈ (tasksListNav meta page).lines
    ∧ ((tasksListNav meta page).nextPage ≠ none ↔
        ∃ t, (tasksListNav meta page).totalPages = some t ∧ t ≠ 0
          ∧ (tasksListNav meta page).currentPage < t)
    ∧ ((tasksListNav meta page).prevPage
        = if 1 < (tasksListNav meta page).currentPage
          then some ((tasksListNav meta page).currentPage - 1) else none)
    ∧ "next_page: null" ∉ (tasksListNav meta page).lines
    ∧ "prev_page: null" ∉ (tasksListNav meta page).lines
    ∧ "next_cursor: null" ∉ (tasksListNav meta page).lines
    ∧ "prev_cursor: null" ∉ (tasksListNav meta page).lines := by
  refine ⟨rfl, tasksListNavCore_cursor_line_mem _ _, tasksListNavCore_nextPage_iff _ _, rfl,
    (tasksListNavCore_no_null _ _).1, (tasksListNavCore_no_null _ _).2.1,
    (tasksListNavCore_no_null _ _).2.2.1, (tasksListNavCore_no_null _ _).2.2.2⟩

/-- C9 counterexample: a status filter naming a column absent from the
name-to-id cache does not surface an UnknownColumn error in tasks_list — it
silently falls back to label filtering (here yielding a plain filtered
list) — whereas task_move_status does surface the tool-level error. -/
theorem claim9_counterexample_silent_filter :
    tasksListStatusFilter [("todo", 1)] "missing" [⟨some 1, some "todo"⟩] = []
    ∧ task_move_status [(1, "todo")] 2 = .errorResult (unknownColumnMessage 2) := by
  refine ⟨by decide, by decide⟩

/-- C9 (amended): task_move_status surfaces the explicit unknown-column
tool-level error whenever the target column id is not in the id-to-name
cache; the tasks_list status filter never errors on an unknown status name
— it falls back to a case-insensitive match against each task's computed
status label. -/
theorem claim9_amended_unknown_column :
    (∀ (idToName : List (Int × String)) (cid : Int), alGet idToName cid = none →
        task_move_status idToName cid = .errorResult (unknownColumnMessage cid))
    ∧ (∀ (nameToId : List (String × Int)) (statusArg : String) (tasks : List TaskItem),
        alGet nameToId (jsToLower statusArg) = none →
          tasksListStatusFilter nameToId statusArg tasks
            = tasks.filter (fun t =>
                match t.status with
                | some s => jsToLower s = jsToLower statusArg
                | none => false)) := by
  constructor
  · intro idToName cid h
    simp [task_move_status, h]
  · intro nameToId statusArg tasks h
    simp [tasksListStatusFilter, h]

theorem claim9_amended_unknown_column_witness :
    (alGet ([] : List (Int × String)) 5 = none
      ∧ task_move_status [] 5 = .errorResult (unknownColumnMessage 5))
    ∧ (alGet [("todo", 1)] (jsToLower "missing") = none
      ∧ tasksListStatusFilter [("todo", 1)] "missing" [] = []) := by
  refine ⟨⟨rfl, claim9_amended_unknown_column.1 [] 5 rfl⟩, ⟨by decide, ?_⟩⟩
  have h := claim9_amended_unknown_column.2 [("todo", 1)] "missing" [] (by decide)
  simpa using h

/-- C10: comments_list slices the single fetched comment list client-side
at (page-1)*pageSize for pageSize elements, emits next_page exactly when
page*pageSize is strictly below the number of comments, and the slices of
pages 1..P tile the list in order — their concatenation is the first
P*pageSize comments, the whole list once P*pageSize covers it. -/
theorem claim10_comments_pagination {α : Type} (comments : List α) (p ps : Int)
    (hp : 1 ≤ p) (hps : 0 < ps) :
    (comments_list comments p ps).slice
      = (comments.drop ((p - 1) * ps).toNat).take ps.toNat
    ∧ ((comments_list comments p ps).nextPage
        = if p * ps < (comments.length : Int) then some (p + 1) else none)
    ∧ (∀ P : Nat, commentsPagesConcat comments ps P = comments.take (P * ps.toNat))
    ∧ (∀ P : Nat, comments.length ≤ P * ps.toNat → commentsPagesConcat comments ps P = comments) := by
  refine ⟨comments_list_slice_eq comments p ps hp hps,
    comments_list_nextPage_eq comments p ps,
    commentsPagesConcat_take comments ps hps, ?_⟩
  intro P hP
  rw [commentsPagesConcat_take comments ps hps P]
  exact List.take_of_length_le hP

theorem claim10_comments_pagination_witness :
    (1 : Int) ≤ 1 ∧ (0 : Int) < 2
    ∧ (comments_list [10, 20, 30] 1 2).slice = [10, 20]
    ∧ commentsPagesConcat [10, 20, 30] 2 2 = [10, 20, 30] := by
  have h := claim10_comments_pagination [10, 20, 30] 1 2 (by decide) (by decide)
  refine ⟨by decide, by decide, ?_, h.2.2.2 2 (by decide)⟩
  rw [h.1]
  decide

end BugherdMcp
